import Mathlib

/-!
Verification development for the divide-and-conquer forecasting engine
(`src/backend/app/services/forecasting/divide_conquer_engine.py`).

The Python module is shallowly embedded here:
* a pandas row becomes a `Record`; a DataFrame becomes a `Frame`
  (its rows plus the list of columns added beyond the base schema,
  which is what in-place column assignments like `df['period'] = ...`
  change on the caller's object);
* prices and all numeric computation are over `ℚ` (Python floats are
  exact for the claims at issue except where noted in comments);
* the external collaborators (statsmodels ARIMA / ExponentialSmoothing,
  sklearn KMeans, pandas `to_period`, and `np.sqrt` inside `np.std`)
  are abstracted into an `Env` record: a fit either returns a forecast
  vector (`some`) or raises (`none`), exactly the observable behaviour
  the engine reacts to;
* Python exceptions are `Option`: a function that raises returns `none`.
-/

namespace DivideConquer

/-- One historical observation (one DataFrame row) with the columns the
engine reads: route key, date, price and the demand features. -/
structure Record where
  origin : String
  destination : String
  date : ℕ
  price : ℚ
  days_to_departure : ℚ
  occupancy_rate : ℚ
  deriving DecidableEq, Repr

/-- A DataFrame: its rows together with the names of columns that were
added to it beyond the base schema.  In-place assignments such as
`df['period'] = ...` extend `extraCols`; the rows (and all base-column
values) are never changed by the engine. -/
structure Frame where
  rows : List Record
  extraCols : List String
  deriving DecidableEq, Repr

/-- `DataSegment`: `metadata` is modelled by the one key every claim
reads, `'size'` (set to `len(group)` at creation; overwritten by the
route segment's size during hierarchical segmentation, because
`temp_seg.metadata.update(route_segment.metadata)` overwrites the
temporal `'size'` entry). -/
structure Segment where
  segment_id : String
  data : List Record
  size : ℕ
  segment_type : String
  deriving DecidableEq, Repr

/-- External collaborators of the engine.  `arimaFit p h` is the outcome
of `ARIMA(p, order=(1,1,1)).fit().forecast(steps=h)` — `none` when the
library raises; likewise `esFit`.  `arimaAvail`/`esAvail` model whether
the `from statsmodels...import` and surrounding call machinery work at
all (an import failure raises outside `forecast_arima`'s own handler).
`sq` is `np.sqrt` restricted to the variances fed to it by `np.std`.
`periodM`/`periodW` abstract `pd.to_datetime(..).dt.to_period('M'/'W')`
as functions of the date.  `cluster fs n` is
`KMeans(n_clusters=n, random_state=42).fit_predict(fs)`. -/
structure Env where
  sq : ℚ → ℚ
  arimaAvail : Bool
  esAvail : Bool
  arimaFit : List ℚ → ℕ → Option (List ℚ)
  esFit : List ℚ → ℕ → Option (List ℚ)
  periodM : ℕ → ℕ
  periodW : ℕ → ℕ
  cluster : List (ℚ × ℚ × ℚ) → ℕ → List ℕ

/-- The distinct keys of a list, in order of first appearance
(`df.groupby` iterates each present key once). -/
def groupKeys {α K : Type} [DecidableEq K] (key : α → K) (l : List α) : List K :=
  (l.map key).dedup

/-- `df.groupby(key)`: each present key paired with the rows having it.
Groups of a pandas groupby are never empty. -/
def groupBy {α K : Type} [DecidableEq K] (key : α → K) (l : List α) :
    List (K × List α) :=
  (groupKeys key l).map fun k => (k, l.filter fun a => decide (key a = k))

/-- `DataSegmenter.segment_by_route`: group by the (origin, destination)
pair and keep the groups of size at least `min_segment_size`. -/
def segment_by_route (mss : ℕ) (rows : List Record) : List Segment :=
  (groupBy (fun r => (r.origin, r.destination)) rows).filterMap fun g =>
    if mss ≤ g.2.length then
      some ⟨"route_" ++ g.1.1 ++ "_" ++ g.1.2, g.2, g.2.length, "route"⟩
    else none

/-- The grouping part of `DataSegmenter.segment_by_temporal`: group rows
by the calendar period of their date and keep large-enough groups.
`per` is the period function for the requested frequency. -/
def segment_by_temporal_rows (per : ℕ → ℕ) (mss : ℕ) (rows : List Record) :
    List Segment :=
  (groupBy (fun r => per r.date) rows).filterMap fun g =>
    if mss ≤ g.2.length then
      some ⟨"temporal_" ++ toString g.1, g.2, g.2.length, "temporal"⟩
    else none

/-- `DataSegmenter.segment_by_temporal` with the default `freq='M'` used
by `predict`.  The first statement of the Python function is
`df['period'] = pd.to_datetime(df['date']).dt.to_period(freq)` — an
in-place column assignment on the caller's DataFrame, returned here as
the first component. -/
def segment_by_temporal (env : Env) (mss : ℕ) (df : Frame) :
    Frame × List Segment :=
  ({ df with extraCols := df.extraCols ++ ["period"] },
   segment_by_temporal_rows env.periodM mss df.rows)

/-- `DataSegmenter.segment_by_demand_pattern`.  `n_clusters` is
`min(5, len(df) // min_segment_size)`; when it is below 2 the function
returns `[]` before touching the frame.  Otherwise it assigns the
KMeans labels as a new `demand_cluster` column on the caller's
DataFrame (an in-place mutation) and groups by them.  A label vector of
the wrong length makes the pandas column assignment raise, hence
`none`.  (For `min_segment_size = 0` Python raises `ZeroDivisionError`;
both renderings produce no segment list, which is all the claims
consult.) -/
def segment_by_demand_pattern (env : Env) (mss : ℕ) (df : Frame) :
    Option (Frame × List Segment) :=
  let n := min 5 (df.rows.length / mss)
  if n < 2 then some (df, [])
  else
    let labels := env.cluster
      (df.rows.map fun r => (r.days_to_departure, r.occupancy_rate, r.price)) n
    if labels.length = df.rows.length then
      some ({ df with extraCols := df.extraCols ++ ["demand_cluster"] },
        (groupBy (fun p => p.2) (df.rows.zip labels)).filterMap fun g =>
          if mss ≤ g.2.length then
            some ⟨"demand_" ++ toString g.1, g.2.map Prod.fst, g.2.length,
              "demand_pattern"⟩
          else none)
    else none

/-- `DataSegmenter.hierarchical_segmentation`: route segmentation, then
weekly temporal segmentation inside each route segment's own (copied)
data; ids are composed, and `metadata.update(route_segment.metadata)`
overwrites the leaf's `'size'` with the route segment's size. -/
def hierarchical_segmentation (env : Env) (mss : ℕ) (rows : List Record) :
    List Segment :=
  (segment_by_route mss rows).flatMap fun rs =>
    (segment_by_temporal_rows env.periodW mss rs.data).map fun ts =>
      { ts with segment_id := rs.segment_id ++ "_" ++ ts.segment_id,
                size := rs.size }

/-- The DIVIDE dispatch at the top of
`DivideAndConquerForecaster.predict`; an unknown strategy raises
`ValueError`.  The returned frame is the caller's DataFrame after the
call (it differs from the input for the mutating strategies). -/
def segmentsFor (env : Env) (mss : ℕ) (df : Frame) (strategy : String) :
    Option (Frame × List Segment) :=
  match strategy with
  | "route" => some (df, segment_by_route mss df.rows)
  | "temporal" => some (segment_by_temporal env mss df)
  | "hierarchical" => some (df, hierarchical_segmentation env mss df.rows)
  | "demand_pattern" => segment_by_demand_pattern env mss df
  | _ => none

/-- The last element of `np.convolve(prices, np.ones(window)/window,
mode='valid')`, used by `forecast_moving_average`.  For
`n = len(prices) ≥ window` it is the mean of the last `window` prices;
for `0 < n < window` every valid-mode entry equals `sum(prices)/window`
(the kernel is constant and the shorter sequence overlaps fully), so
the last is `sum(prices)/window`.  Both cases are
`(sum of the last min n window prices) / window`.  The
`else np.mean(prices)` branch of the source is unreachable: a
valid-mode convolution of a non-empty input with a non-empty kernel is
non-empty. -/
def lastValidMA (prices : List ℚ) (window : ℕ) : ℚ :=
  ((prices.reverse.take window).sum) / (window : ℚ)

/-- `SegmentForecaster.forecast_moving_average`.  `np.convolve` raises
on an empty input (and on an empty kernel), hence `none`; otherwise the
forecast repeats the last windowed average `horizon` times. -/
def forecast_moving_average (prices : List ℚ) (horizon : ℕ)
    (window : ℕ := 7) : Option (List ℚ) :=
  if prices = [] ∨ window = 0 then none
  else some (List.replicate horizon (lastValidMA prices window))

/-- `SegmentForecaster.forecast_arima`: a fit failure is caught locally
and replaced by the moving average (whose own failure propagates). -/
def forecast_arima (env : Env) (prices : List ℚ) (horizon : ℕ) :
    Option (List ℚ) :=
  match env.arimaFit prices horizon with
  | some f => some f
  | none => forecast_moving_average prices horizon

/-- `SegmentForecaster.forecast_exponential_smoothing`, same shape. -/
def forecast_exponential_smoothing (env : Env) (prices : List ℚ)
    (horizon : ℕ) : Option (List ℚ) :=
  match env.esFit prices horizon with
  | some f => some f
  | none => forecast_moving_average prices horizon

/-- The `(forecast, static weight)` members collected by
`ensemble_forecast`: the ARIMA attempt (weight 0.4) and the
exponential-smoothing attempt (weight 0.3) when their surrounding
`try` succeeds, and always the moving average (weight 0.3).  An
attempt whose machinery is unavailable (import failure) or whose
internal moving-average fallback raises is swallowed by the bare
`except: pass`. -/
def ensembleMembers (env : Env) (prices : List ℚ) (horizon : ℕ) :
    List (List ℚ × ℚ) :=
  (match (if env.arimaAvail then forecast_arima env prices horizon
          else none) with
    | some f => [(f, (2 : ℚ)/5)]
    | none => []) ++
  (match (if env.esAvail then forecast_exponential_smoothing env prices horizon
          else none) with
    | some f => [(f, (3 : ℚ)/10)]
    | none => []) ++
  (match forecast_moving_average prices horizon with
    | some f => [(f, (3 : ℚ)/10)]
    | none => [])

/-- `np.mean` of a vector (`sum / len`; over ℚ the empty case yields
`0/0 = 0`, and the one place the code takes the mean of a possibly
empty vector only asks whether it is `> 0` — float `nan > 0` is also
false). -/
def meanQ (l : List ℚ) : ℚ := l.sum / (l.length : ℚ)

/-- Entry `i` of each member forecast (the `i`-th column of the stacked
`forecasts` array). -/
def colAt (fs : List (List ℚ)) (i : ℕ) : List ℚ :=
  fs.map fun f => f.getD i 0

/-- The population variance of column `i` across members — the square
of `np.std(forecasts, axis=0)[i]`. -/
def varAt (fs : List (List ℚ)) (i : ℕ) : ℚ :=
  meanQ ((colAt fs i).map fun x => (x - meanQ (colAt fs i))^2)

/-- `np.std(forecasts, axis=0).mean()` for members of common length
`n`: the mean over the `n` columns of the column standard deviations,
`env.sq` standing for `np.sqrt`. -/
def stdMean (env : Env) (fs : List (List ℚ)) (n : ℕ) : ℚ :=
  ((List.range n).map fun i => env.sq (varAt fs i)).sum / (n : ℚ)

/-- `np.average(fs, axis=0, weights=ws)`.  numpy raises on an empty
sequence, on ragged member lengths, on a weight count mismatch and on
a zero weight sum; otherwise entry `i` is `Σ wⱼ·fⱼ[i] / Σ wⱼ`. -/
def npAverage (fs : List (List ℚ)) (ws : List ℚ) : Option (List ℚ) :=
  match fs with
  | [] => none
  | f :: r =>
    if (∀ g ∈ f :: r, g.length = f.length) ∧ ws.length = (f :: r).length ∧
        ws.sum ≠ 0 then
      some ((List.range f.length).map fun i =>
        ((( f :: r).zip ws).map fun p => p.2 * p.1.getD i 0).sum / ws.sum)
    else none

/-- `np.average(xs, weights=ws)` on a 1-D vector. -/
def npAverageScalar (xs ws : List ℚ) : Option ℚ :=
  match xs with
  | [] => none
  | _ =>
    if ws.length = xs.length ∧ ws.sum ≠ 0 then
      some (((xs.zip ws).map fun p => p.2 * p.1).sum / ws.sum)
    else none

/-- `weights = np.array(weights) / sum(weights)` — the renormalisation
of the collected static ensemble weights. -/
def normWeights (ws : List ℚ) : List ℚ :=
  ws.map fun w => w / ws.sum

/-- The confidence computed at the end of `ensemble_forecast`:
agreement-based (1 − mean member std / ensemble mean, clamped below at
0) when more than one member is present and the ensemble mean is
positive, 0.5 when it is not positive, and the fixed 0.6 when the
moving average is the only member. -/
def ensembleConfidence (env : Env) (fs : List (List ℚ)) (horizon : ℕ)
    (ens : List ℚ) : ℚ :=
  if 1 < fs.length then
    if 0 < meanQ ens then
      max 0 (1 - stdMean env fs horizon / meanQ ens)
    else 1/2
  else 6/10

/-- `SegmentForecaster.ensemble_forecast`.  The moving average is
appended outside any `try`, so its failure (empty price series) aborts
the whole call.  The collected static weights are renormalised, the
members averaged elementwise, and the confidence attached. -/
def ensemble_forecast (env : Env) (prices : List ℚ) (horizon : ℕ) :
    Option (List ℚ × ℚ) :=
  match forecast_moving_average prices horizon with
  | none => none
  | some _ =>
    match npAverage ((ensembleMembers env prices horizon).map Prod.fst)
        (normWeights ((ensembleMembers env prices horizon).map Prod.snd)) with
    | none => none
    | some ens =>
      some (ens, ensembleConfidence env
        ((ensembleMembers env prices horizon).map Prod.fst) horizon ens)

/-- One element of the `segment_forecasts` list handed to the merger:
`{'segment_id': ..., 'forecast': ..., 'confidence': ..., 'metadata':
...}`, the metadata again modelled by its `'size'` entry. -/
structure SegForecast where
  segment_id : String
  forecast : List ℚ
  confidence : ℚ
  size : ℕ
  deriving DecidableEq, Repr

/-- The merger's output dict (`segment_contributions` omitted — no
claim reads it). -/
structure MergeOut where
  forecast : List ℚ
  confidence : ℚ
  num_segments : ℕ
  strategy : String
  deriving DecidableEq, Repr

/-- The weight vector `confidences / confidences.sum()` of
`ForecastMerger._confidence_based`.  When every confidence is 0 the
float division is `0.0/0.0 = nan` for each entry; over ℚ the same
division-by-zero renders as 0 — either way the vector does not sum
to 1. -/
def confWeights (sfs : List SegForecast) : List ℚ :=
  sfs.map fun sf => sf.confidence / (sfs.map fun t => t.confidence).sum

/-- The weight vector `metadata['size'] / total_weight` of
`ForecastMerger._weighted_average` (every pipeline metadata dict
carries `'size'`, so the `.get` default 1 never applies). -/
def sizeWeights (sfs : List SegForecast) : List ℚ :=
  sfs.map fun sf => (sf.size : ℚ) / (((sfs.map fun t => t.size).sum : ℕ) : ℚ)

/-- `ForecastMerger._confidence_based`.  On an empty list `np.average`
raises.  When the confidence sum is zero the numpy weights are NaN and
the "merged forecast" is a NaN vector, i.e. no number at all; the
rational model renders that non-numeric outcome as `none` (the zero
weight sum fails `npAverage`'s guard). -/
def confidence_based (sfs : List SegForecast) : Option MergeOut :=
  match sfs with
  | [] => none
  | s :: rest =>
    match npAverage ((s :: rest).map fun t => t.forecast)
        (confWeights (s :: rest)) with
    | none => none
    | some mf =>
      some ⟨mf, (rest.map fun t => t.confidence).foldl max s.confidence,
        (s :: rest).length, "confidence_based"⟩

/-- `ForecastMerger._weighted_average`.  A zero size total makes Python
raise `ZeroDivisionError` at the first weight; the model reaches the
same observable failure through `npAverage`'s zero-sum guard. -/
def weighted_average (sfs : List SegForecast) : Option MergeOut :=
  match sfs with
  | [] => none
  | s :: rest =>
    match npAverage ((s :: rest).map fun t => t.forecast)
        (sizeWeights (s :: rest)),
        npAverageScalar ((s :: rest).map fun t => t.confidence)
        (sizeWeights (s :: rest)) with
    | some mf, some mc =>
      some ⟨mf, mc, (s :: rest).length, "weighted_average"⟩
    | _, _ => none

/-- The result dict of `DivideAndConquerForecaster.predict`.  The
degenerate zero-segments path returns `{'forecast', 'confidence',
'strategy': 'global', 'num_segments': 0}` — it has no
`segmentation_strategy` key, modelled as `none`; the merged path adds
`merged_result['segmentation_strategy'] = segmentation_strategy` to
the merger's dict, whose `strategy` key stays `'confidence_based'`. -/
structure PredictResult where
  forecast : List ℚ
  confidence : ℚ
  strategy : String
  num_segments : ℕ
  segmentation_strategy : Option String
  deriving DecidableEq, Repr

/-- `DivideAndConquerForecaster.predict`: DIVIDE via `segmentsFor`,
the degenerate whole-dataset ensemble when no segments result, else
CONQUER (a failing segment is caught and dropped) and COMBINE with the
`confidence_based` strategy. -/
def predict (env : Env) (mss : ℕ) (df : Frame) (horizon : ℕ)
    (strategy : String) : Option PredictResult :=
  match segmentsFor env mss df strategy with
  | none => none
  | some (_, segments) =>
    match segments with
    | [] =>
      match ensemble_forecast env (df.rows.map fun r => r.price) horizon with
      | none => none
      | some fc => some ⟨fc.1, fc.2, "global", 0, none⟩
    | s :: rest =>
      match confidence_based ((s :: rest).filterMap fun seg =>
        (ensemble_forecast env (seg.data.map fun r => r.price) horizon).map
          fun fc => SegForecast.mk seg.segment_id fc.1 fc.2 seg.size) with
      | none => none
      | some m =>
        some ⟨m.forecast, m.confidence, m.strategy, m.num_segments,
          some strategy⟩

/-! ### Concrete fixtures used by witnesses and counterexamples -/

/-- A concrete environment: the statistical libraries are importable
but every ARIMA / exponential-smoothing fit raises (the situation the
spec calls both models "failing"); `np.sqrt` is only ever applied to
the variance 0 in these runs, where it returns 0. -/
def envW : Env :=
  ⟨fun _ => 0, true, true, fun _ _ => none, fun _ _ => none,
   fun d => d / 30, fun d => d / 7, fun _ _ => []⟩

/-- A concrete environment in which the statsmodels imports themselves
fail, so the ensemble's `try` blocks swallow both model attempts and
only the moving average remains. -/
def envNoLibs : Env :=
  ⟨fun _ => 0, false, false, fun _ _ => none, fun _ _ => none,
   fun d => d / 30, fun d => d / 7, fun _ _ => []⟩

/-- One historical record on route JFK→LAX (whole-number feature
values, so record equality reduces by `decide`). -/
def recW (dt : ℕ) (p : ℚ) : Record :=
  ⟨"JFK", "LAX", dt, p, 10, 1⟩

/-- Three same-route records: one qualifying route group at
`min_segment_size = 2`. -/
def frameW : Frame :=
  ⟨[recW 1 7, recW 2 7, recW 3 7], []⟩

/-- The route segments of `frameW` at threshold 2. -/
def segsW : List Segment :=
  segment_by_route 2 frameW.rows

/-- The single route segment of `frameW`. -/
def segW : Segment :=
  ⟨"route_JFK_LAX", frameW.rows, 3, "route"⟩

/-- A one-record frame: below any threshold ≥ 2, so segmentation finds
nothing and `predict` takes the degenerate zero-segments path. -/
def frameSmall : Frame :=
  ⟨[recW 1 7], []⟩

/-- The result `predict` returns on `frameSmall` (horizon 3, route
strategy, threshold 10): the moving average of one price 7 is
`7/7 = 1` (valid-mode convolution with the constant kernel), the three
ensemble members coincide, so the confidence is 1. -/
def resW : PredictResult :=
  ⟨[1, 1, 1], 1, "global", 0, none⟩

/-- The result `predict` returns on `frameW` (horizon 3, route strategy,
threshold 2): one route segment whose moving average is `21/7 = 3`,
three agreeing members, confidence 1, merged by `confidence_based`. -/
def resMerged : PredictResult :=
  ⟨[3, 3, 3], 1, "confidence_based", 1, some "route"⟩

/-! ### Helper lemmas -/

theorem groupBy_snd_ne_nil {α K : Type} [DecidableEq K] (key : α → K)
    (l : List α) : ∀ p ∈ groupBy key l, p.2 ≠ [] := by
  intro p hp
  rcases List.mem_map.mp hp with ⟨k, hk, rfl⟩
  rcases List.mem_map.mp (List.mem_dedup.mp hk) with ⟨a, ha, rfl⟩
  exact List.ne_nil_of_mem (List.mem_filter.mpr ⟨ha, by simp⟩)

theorem segment_by_route_good (mss : ℕ) (rows : List Record) :
    ∀ s ∈ segment_by_route mss rows, mss ≤ s.size ∧ s.data ≠ [] := by
  intro s hs
  rcases List.mem_filterMap.mp hs with ⟨g, hg, hsome⟩
  by_cases hle : mss ≤ g.2.length
  · simp only [segment_by_route, hle, if_true, Option.some.injEq] at hsome
    subst hsome
    exact ⟨hle, groupBy_snd_ne_nil _ rows g hg⟩
  · simp [hle] at hsome

theorem segment_by_temporal_rows_good (per : ℕ → ℕ) (mss : ℕ)
    (rows : List Record) :
    ∀ s ∈ segment_by_temporal_rows per mss rows,
      mss ≤ s.size ∧ s.data ≠ [] := by
  intro s hs
  rcases List.mem_filterMap.mp hs with ⟨g, hg, hsome⟩
  by_cases hle : mss ≤ g.2.length
  · simp only [segment_by_temporal_rows, hle, if_true,
      Option.some.injEq] at hsome
    subst hsome
    exact ⟨hle, groupBy_snd_ne_nil _ rows g hg⟩
  · simp [hle] at hsome

theorem hierarchical_segmentation_good (env : Env) (mss : ℕ)
    (rows : List Record) :
    ∀ s ∈ hierarchical_segmentation env mss rows,
      mss ≤ s.size ∧ s.data ≠ [] := by
  intro s hs
  rcases List.mem_flatMap.mp hs with ⟨rs, hrs, hmem⟩
  rcases List.mem_map.mp hmem with ⟨ts, hts, rfl⟩
  exact ⟨(segment_by_route_good mss rows rs hrs).1,
    (segment_by_temporal_rows_good env.periodW mss rs.data ts hts).2⟩

theorem segment_by_demand_pattern_good (env : Env) (mss : ℕ) (df : Frame)
    (df' : Frame) (segs : List Segment)
    (h : segment_by_demand_pattern env mss df = some (df', segs)) :
    ∀ s ∈ segs, mss ≤ s.size ∧ s.data ≠ [] := by
  intro s hs
  simp only [segment_by_demand_pattern] at h
  split at h
  · simp only [Option.some.injEq, Prod.mk.injEq] at h
    obtain ⟨rfl, rfl⟩ := h
    exact absurd hs (List.not_mem_nil s)
  · split at h
    · simp only [Option.some.injEq, Prod.mk.injEq] at h
      obtain ⟨rfl, rfl⟩ := h
      rcases List.mem_filterMap.mp hs with ⟨g, hg, hsome⟩
      by_cases hle : mss ≤ g.2.length
      · simp only [hle, if_true, Option.some.injEq] at hsome
        subst hsome
        refine ⟨hle, ?_⟩
        have hne := groupBy_snd_ne_nil (fun p => p.2) _ g hg
        simpa using hne
      · simp [hle] at hsome
    · exact absurd h (by simp)

/-- `confidence_based` only succeeds on a non-empty input, and then
reports that input's length as `num_segments`. -/
theorem confidence_based_num_pos (sfs : List SegForecast) (m : MergeOut)
    (h : confidence_based sfs = some m) : 0 < m.num_segments := by
  match sfs with
  | [] => simp [confidence_based] at h
  | s :: rest =>
    simp only [confidence_based] at h
    split at h
    · exact absurd h (by simp)
    · injection h with h2
      subst h2
      exact Nat.succ_pos _

/-- Reading a list back off `List.range` by `getD` is the identity. -/
theorem map_range_getD (l : List ℚ) :
    (List.range l.length).map (fun i => l.getD i 0) = l := by
  apply List.ext_getElem
  · simp
  · intro i h1 h2
    rw [List.getElem_map, List.getElem_range, List.getD_eq_getElem l 0 h2]

/-- A column of three identical member forecasts has variance 0. -/
theorem varAt_triple (ma : List ℚ) (i : ℕ) : varAt [ma, ma, ma] i = 0 := by
  simp only [varAt, colAt, meanQ, List.map_cons, List.map_nil,
    List.sum_cons, List.sum_nil, List.length_cons, List.length_nil]
  push_cast
  ring

/-- The mean member standard deviation is nonnegative whenever the
square-root function is. -/
theorem stdMean_nonneg (env : Env) (fs : List (List ℚ)) (n : ℕ)
    (hsq : ∀ x, 0 ≤ env.sq x) : 0 ≤ stdMean env fs n := by
  apply div_nonneg _ (by positivity)
  apply List.sum_nonneg
  intro x hx
  rcases List.mem_map.mp hx with ⟨i, _, rfl⟩
  exact hsq _

/-- With more than one member, the ensemble confidence lies in the
unit interval. -/
theorem ensembleConfidence_mem_unit (env : Env) (fs : List (List ℚ))
    (horizon : ℕ) (ens : List ℚ) (hsq : ∀ x, 0 ≤ env.sq x)
    (h2 : 1 < fs.length) :
    0 ≤ ensembleConfidence env fs horizon ens ∧
      ensembleConfidence env fs horizon ens ≤ 1 := by
  unfold ensembleConfidence
  rw [if_pos h2]
  by_cases hm : 0 < meanQ ens
  · rw [if_pos hm]
    refine ⟨le_max_left 0 _, max_le zero_le_one ?_⟩
    have hd : 0 ≤ stdMean env fs horizon / meanQ ens :=
      div_nonneg (stdMean_nonneg env fs horizon hsq) hm.le
    linarith
  · rw [if_neg hm]
    norm_num

/-! ### Claims -/

/-- C1: for every dataset and every segmentation strategy (route,
temporal, demand-pattern, hierarchical), every Segment the Segmenter
returns has metadata size at least `min_segment_size` and a non-empty
record set; no segment is ever created empty. -/
theorem c1_segment_size_invariant (env : Env) (mss : ℕ) (df : Frame)
    (strategy : String) (df' : Frame) (segs : List Segment)
    (h : segmentsFor env mss df strategy = some (df', segs)) :
    ∀ s ∈ segs, mss ≤ s.size ∧ s.data ≠ [] := by
  unfold segmentsFor at h
  split at h
  · simp only [Option.some.injEq, Prod.mk.injEq] at h
    obtain ⟨rfl, rfl⟩ := h
    exact segment_by_route_good mss df.rows
  · simp only [segment_by_temporal, Option.some.injEq, Prod.mk.injEq] at h
    obtain ⟨rfl, rfl⟩ := h
    exact segment_by_temporal_rows_good env.periodM mss df.rows
  · simp only [Option.some.injEq, Prod.mk.injEq] at h
    obtain ⟨rfl, rfl⟩ := h
    exact hierarchical_segmentation_good env mss df.rows
  · exact segment_by_demand_pattern_good env mss df df' segs h
  · exact absurd h (by simp)

/-- Witness for C1 at a concrete run: the route segmentation of
`frameW` at threshold 2 is `segsW`, `segW` is one of its segments, and
the invariant holds at it. -/
theorem c1_segment_size_invariant_witness :
    2 ≤ segW.size ∧ segW.data ≠ [] :=
  c1_segment_size_invariant envW 2 frameW "route" frameW segsW (by decide)
    segW (by decide)

/-- C4 fails: `segment_by_temporal` mutates the caller's DataFrame —
after the call the frame has gained a `period` column, so it is not
unchanged. -/
theorem c4_counterexample_temporal_mutates :
    (segment_by_temporal envW 2 frameW).1 ≠ frameW := by
  decide

/-- C4 amended: every segmentation strategy leaves the rows (and all
base-column values) unchanged, and route and hierarchical segmentation
leave the caller's frame entirely unchanged; but `segment_by_temporal`
appends a `period` column to the caller's frame, and
`segment_by_demand_pattern` appends a `demand_cluster` column whenever
the computed cluster count is at least 2 (and the label assignment
succeeds). -/
theorem c4_amended_frame_effects (env : Env) (mss : ℕ) (df : Frame) :
    (segment_by_temporal env mss df).1 =
      Frame.mk df.rows (df.extraCols ++ ["period"]) ∧
    (segment_by_demand_pattern env mss df).map Prod.fst =
      (segment_by_demand_pattern env mss df).map (fun _ =>
        if 2 ≤ min 5 (df.rows.length / mss) then
          Frame.mk df.rows (df.extraCols ++ ["demand_cluster"])
        else df) ∧
    (segmentsFor env mss df "route").map Prod.fst = some df ∧
    (segmentsFor env mss df "hierarchical").map Prod.fst = some df := by
  refine ⟨rfl, ?_, rfl, rfl⟩
  by_cases h2 : min 5 (df.rows.length / mss) < 2
  · simp [segment_by_demand_pattern, h2, Nat.not_le_of_lt h2]
  · simp only [segment_by_demand_pattern, if_neg h2]
    split
    · simp [Nat.not_lt.mp h2]
    · simp

/-- C5: on a dataset with no records at all, `predict` raises (the
moving-average fallback cannot be computed) rather than returning any
forecast, for every one of the four strategies. -/
theorem c5_empty_input_terminal_failure (env : Env) (mss horizon : ℕ)
    (cols : List String) :
    predict env mss ⟨[], cols⟩ horizon "route" = none ∧
    predict env mss ⟨[], cols⟩ horizon "temporal" = none ∧
    predict env mss ⟨[], cols⟩ horizon "hierarchical" = none ∧
    predict env mss ⟨[], cols⟩ horizon "demand_pattern" = none := by
  refine ⟨?_, ?_, ?_, ?_⟩ <;>
    simp [predict, segmentsFor, segment_by_route, segment_by_temporal,
      segment_by_temporal_rows, segment_by_demand_pattern,
      hierarchical_segmentation, groupBy, groupKeys, ensemble_forecast,
      forecast_moving_average, Nat.zero_div]

/-- C8 fails: on the degenerate zero-segments path the returned dict
has no `segmentation_strategy` key at all (its `strategy` key is
`'global'`), so the result of this run does not carry the requested
strategy `route`. -/
theorem c8_counterexample_degenerate_path :
    (predict envW 10 frameSmall 3 "route").map
        (fun r => r.segmentation_strategy) = some none ∧
    (predict envW 10 frameSmall 3 "route").map
        (fun r => r.segmentation_strategy) ≠ some (some "route") := by
  norm_num [predict, segmentsFor, segment_by_route, groupBy, groupKeys,
    ensemble_forecast, ensembleMembers, forecast_arima,
    forecast_exponential_smoothing, forecast_moving_average, lastValidMA,
    npAverage, normWeights, ensembleConfidence, meanQ, stdMean, varAt,
    colAt, envW, frameSmall, recW, List.cons_ne_nil, List.range_succ]
  decide

/-- C8 amended: a returned result carries the requested
`segmentation_strategy` exactly on the merged path (at least one
segment); on the degenerate zero-segments path the result instead has
`num_segments = 0`, strategy `'global'`, and no `segmentation_strategy`
key. -/
theorem c8_amended_strategy_traceability (env : Env) (mss : ℕ) (df : Frame)
    (horizon : ℕ) (strategy : String) (r : PredictResult)
    (h : predict env mss df horizon strategy = some r) :
    (r.num_segments = 0 ∧ r.strategy = "global" ∧
      r.segmentation_strategy = none) ∨
    (0 < r.num_segments ∧ r.segmentation_strategy = some strategy) := by
  unfold predict at h
  split at h
  · exact absurd h (by simp)
  · rename_i p heq
    split at h
    · split at h
      · exact absurd h (by simp)
      · simp only [Option.some.injEq] at h
        subst h
        exact Or.inl ⟨rfl, rfl, rfl⟩
    · split at h
      · exact absurd h (by simp)
      · rename_i m hm
        simp only [Option.some.injEq] at h
        subst h
        exact Or.inr ⟨confidence_based_num_pos _ m hm, rfl⟩

/-- Witness for C8 amended: the degenerate run on `frameSmall` returns
`resW`, which satisfies the left disjunct. -/
theorem c8_amended_strategy_traceability_witness :
    (resW.num_segments = 0 ∧ resW.strategy = "global" ∧
      resW.segmentation_strategy = none) ∨
    (0 < resW.num_segments ∧ resW.segmentation_strategy = some "route") :=
  c8_amended_strategy_traceability envW 10 frameSmall 3 "route" resW
    (by norm_num [predict, segmentsFor, segment_by_route, groupBy, groupKeys,
      ensemble_forecast, ensembleMembers, forecast_arima,
      forecast_exponential_smoothing, forecast_moving_average, lastValidMA,
      npAverage, normWeights, ensembleConfidence, meanQ, stdMean, varAt,
      colAt, envW, frameSmall, recW, resW, List.cons_ne_nil, List.range_succ])

/-- C3 fails: when both the ARIMA and the exponential-smoothing fits
raise, `forecast_arima` / `forecast_exponential_smoothing` catch the
error and return the moving average themselves, so the ensemble has
three (identical) members, not one; on seven prices of 7 the returned
confidence is 1 (perfect agreement), not 0.6. -/
theorem c3_counterexample_confidence_is_one :
    ensemble_forecast envW [7, 7, 7, 7, 7, 7, 7] 3 = some ([7, 7, 7], 1) ∧
    (1 : ℚ) ≠ 6/10 := by
  constructor
  · norm_num [ensemble_forecast, ensembleMembers, forecast_arima,
      forecast_exponential_smoothing, forecast_moving_average, lastValidMA,
      npAverage, normWeights, ensembleConfidence, meanQ, stdMean, varAt,
      colAt, envW, List.cons_ne_nil, List.range_succ]
  · norm_num

/-- C3 amended: when both model fits fail, each attempt falls back
internally to the moving average and still counts as an ensemble
member; `ensemble_forecast` returns exactly the moving-average
forecast, with confidence 1 when that forecast's mean is positive and
0.5 otherwise — never 0.6.  (The fixed 0.6 arises only when the model
attempts raise outside their internal handlers, e.g. on an import
failure, leaving the moving average as the sole member.) -/
theorem c3_amended_internal_fallback (env : Env) (prices : List ℚ)
    (horizon : ℕ) (hA : env.arimaAvail = true) (hE : env.esAvail = true)
    (ha : env.arimaFit prices horizon = none)
    (he : env.esFit prices horizon = none) (hsq : env.sq 0 = 0) :
    ensemble_forecast env prices horizon =
      (forecast_moving_average prices horizon).map
        (fun ma => (ma, if 0 < meanQ ma then (1 : ℚ) else 1/2)) := by
  cases hma : forecast_moving_average prices horizon with
  | none => simp [ensemble_forecast, hma]
  | some ma =>
    have hmem : ensembleMembers env prices horizon =
        [(ma, 2/5), (ma, 3/10), (ma, 3/10)] := by
      simp [ensembleMembers, hA, hE, forecast_arima,
        forecast_exponential_smoothing, ha, he, hma]
    have hnw : normWeights [(2 : ℚ)/5, 3/10, 3/10] = [2/5, 3/10, 3/10] := by
      norm_num [normWeights]
    have hens : npAverage [ma, ma, ma] [2/5, 3/10, 3/10] = some ma := by
      simp only [npAverage]
      rw [if_pos ⟨by simp, by simp, by norm_num⟩]
      refine congrArg some ?_
      have hpt : ∀ i : ℕ,
          ((([ma, ma, ma]).zip [(2 : ℚ)/5, 3/10, 3/10]).map
            (fun p => p.2 * p.1.getD i 0)).sum /
              (([(2 : ℚ)/5, 3/10, 3/10] : List ℚ)).sum = ma.getD i 0 := by
        intro i
        simp only [List.zip, List.zipWith, List.map_cons, List.map_nil,
          List.sum_cons, List.sum_nil]
        ring
      simp only [hpt]
      exact map_range_getD ma
    have hconf : ensembleConfidence env [ma, ma, ma] horizon ma =
        if 0 < meanQ ma then (1 : ℚ) else 1/2 := by
      unfold ensembleConfidence
      rw [if_pos (by simp : (1 : ℕ) < ([ma, ma, ma]).length)]
      have hstd : stdMean env [ma, ma, ma] horizon = 0 := by
        unfold stdMean
        simp [varAt_triple, hsq]
      rw [hstd]
      by_cases hm : 0 < meanQ ma
      · rw [if_pos hm, if_pos hm, zero_div, sub_zero]
        exact max_eq_right zero_le_one
      · rw [if_neg hm, if_neg hm]
    unfold ensemble_forecast
    rw [hma, hmem]
    simp only [List.map_cons, List.map_nil, hnw, hens, hconf,
      Option.map_some']

/-- Witness for C3 amended at a concrete input: `envW` has working
imports but both fits raise; on seven prices of 7 the conclusion
evaluates to the moving-average forecast with confidence 1. -/
theorem c3_amended_internal_fallback_witness :
    ensemble_forecast envW [7, 7, 7, 7, 7, 7, 7] 2 =
      (forecast_moving_average [7, 7, 7, 7, 7, 7, 7] 2).map
        (fun ma => (ma, if 0 < meanQ ma then (1 : ℚ) else 1/2)) :=
  c3_amended_internal_fallback envW [7, 7, 7, 7, 7, 7, 7] 2 rfl rfl rfl rfl
    rfl

/-- C9: whenever at least two ensemble members succeeded, the returned
confidence lies in the closed interval [0, 1] (`np.sqrt` of a variance
is nonnegative, abstracted as the hypothesis on `env.sq`). -/
theorem c9_confidence_unit_interval (env : Env) (prices : List ℚ)
    (horizon : ℕ) (f : List ℚ) (c : ℚ) (hsq : ∀ x, 0 ≤ env.sq x)
    (h2 : 1 < (ensembleMembers env prices horizon).length)
    (h : ensemble_forecast env prices horizon = some (f, c)) :
    0 ≤ c ∧ c ≤ 1 := by
  unfold ensemble_forecast at h
  split at h
  · exact absurd h (by simp)
  · split at h
    · exact absurd h (by simp)
    · rename_i ens hens
      have hpair := Option.some.inj h
      have hc : c = ensembleConfidence env
          ((ensembleMembers env prices horizon).map Prod.fst) horizon ens :=
        (congrArg Prod.snd hpair).symm
      rw [hc]
      exact ensembleConfidence_mem_unit env _ horizon ens hsq
        (by simpa using h2)

/-- Witness for C9: on seven prices of 7, `envW`'s run has three
members and confidence 1 ∈ [0, 1]. -/
theorem c9_confidence_unit_interval_witness :
    0 ≤ (1 : ℚ) ∧ (1 : ℚ) ≤ 1 :=
  c9_confidence_unit_interval envW [7, 7, 7, 7, 7, 7, 7] 3 [7, 7, 7] 1
    (fun _ => le_refl 0)
    (by norm_num [ensembleMembers, forecast_arima,
      forecast_exponential_smoothing, forecast_moving_average, lastValidMA,
      envW, List.cons_ne_nil])
    (by norm_num [ensemble_forecast, ensembleMembers, forecast_arima,
      forecast_exponential_smoothing, forecast_moving_average, lastValidMA,
      npAverage, normWeights, ensembleConfidence, meanQ, stdMean, varAt,
      colAt, envW, List.cons_ne_nil, List.range_succ])

/-- C10: with more than one contributing member and a non-positive
ensemble mean, the agreement formula is skipped and the confidence is
exactly 0.5. -/
theorem c10_nonpositive_mean_half_confidence (env : Env) (prices : List ℚ)
    (horizon : ℕ) (f : List ℚ) (c : ℚ)
    (h2 : 1 < (ensembleMembers env prices horizon).length)
    (hm : meanQ f ≤ 0)
    (h : ensemble_forecast env prices horizon = some (f, c)) :
    c = 1/2 := by
  unfold ensemble_forecast at h
  split at h
  · exact absurd h (by simp)
  · split at h
    · exact absurd h (by simp)
    · rename_i ens hens
      have hpair := Option.some.inj h
      have hc : c = ensembleConfidence env
          ((ensembleMembers env prices horizon).map Prod.fst) horizon ens :=
        (congrArg Prod.snd hpair).symm
      have hf : ens = f := by
        simpa using congrArg Prod.fst hpair
      have hme : meanQ ens ≤ 0 := by
        rw [hf]
        exact hm
      rw [hc]
      unfold ensembleConfidence
      rw [if_pos (by simpa using h2), if_neg (not_lt.mpr hme)]

/-- Witness for C10: three prices of 0 give a three-member ensemble
with forecast [0, 0], mean 0, and confidence exactly 1/2. -/
theorem c10_nonpositive_mean_half_confidence_witness :
    (1 : ℚ)/2 = 1/2 :=
  c10_nonpositive_mean_half_confidence envW [0, 0, 0] 2 [0, 0] (1/2)
    (by norm_num [ensembleMembers, forecast_arima,
      forecast_exponential_smoothing, forecast_moving_average, lastValidMA,
      envW, List.cons_ne_nil])
    (by norm_num [meanQ])
    (by norm_num [ensemble_forecast, ensembleMembers, forecast_arima,
      forecast_exponential_smoothing, forecast_moving_average, lastValidMA,
      npAverage, normWeights, ensembleConfidence, meanQ, stdMean, varAt,
      colAt, envW, List.cons_ne_nil, List.range_succ])

/-- Dividing every entry of a list by a constant divides its sum. -/
theorem sum_map_div (l : List ℚ) (c : ℚ) :
    (l.map fun x => x / c).sum = l.sum / c := by
  induction l with
  | nil => simp
  | cons a t ih => simp [ih, add_div]

/-- The confidence-based weight vector sums to 1 whenever the
confidence total is nonzero. -/
theorem confWeights_sum (sfs : List SegForecast)
    (hC : (sfs.map fun t => t.confidence).sum ≠ 0) :
    (confWeights sfs).sum = 1 := by
  have h1 : confWeights sfs = (sfs.map fun t => t.confidence).map
      fun x => x / (sfs.map fun t => t.confidence).sum := by
    simp [confWeights, List.map_map, Function.comp]
  rw [h1, sum_map_div, div_self hC]

/-- The size-based weight vector sums to 1 whenever the size total is
nonzero. -/
theorem sizeWeights_sum (sfs : List SegForecast)
    (hS : ((((sfs.map fun t => t.size).sum) : ℕ) : ℚ) ≠ 0) :
    (sizeWeights sfs).sum = 1 := by
  have h1 : sizeWeights sfs = (sfs.map fun t => ((t.size : ℕ) : ℚ)).map
      fun x => x / ((((sfs.map fun t => t.size).sum) : ℕ) : ℚ) := by
    simp [sizeWeights, List.map_map, Function.comp]
  have h2 : (sfs.map fun t => ((t.size : ℕ) : ℚ)).sum =
      ((((sfs.map fun t => t.size).sum) : ℕ) : ℚ) := by
    rw [Nat.cast_list_sum, List.map_map]
    rfl
  rw [h1, sum_map_div, h2, div_self hS]

/-- The seed is below a `foldl max`. -/
theorem le_foldl_max (l : List ℚ) (b : ℚ) : b ≤ l.foldl max b := by
  induction l generalizing b with
  | nil => exact le_refl b
  | cons x t ih => exact le_trans (le_max_left b x) (ih (max b x))

/-- Every element of the list is below its `foldl max`. -/
theorem mem_le_foldl_max (l : List ℚ) (b : ℚ) : ∀ a ∈ l, a ≤ l.foldl max b := by
  induction l generalizing b with
  | nil => intro a ha; exact absurd ha (List.not_mem_nil a)
  | cons x t ih =>
    intro a ha
    rcases List.mem_cons.mp ha with rfl | ha'
    · exact le_trans (le_max_right b a) (le_foldl_max t (max b a))
    · exact ih (max b x) a ha'

/-- A `foldl max` is the seed or one of the elements. -/
theorem foldl_max_mem (l : List ℚ) (b : ℚ) :
    l.foldl max b = b ∨ l.foldl max b ∈ l := by
  induction l generalizing b with
  | nil => exact Or.inl rfl
  | cons x t ih =>
    have hfold : (x :: t).foldl max b = t.foldl max (max b x) := rfl
    rcases ih (max b x) with h | h
    · rcases max_choice b x with hbx | hbx
      · exact Or.inl (by rw [hfold, h, hbx])
      · exact Or.inr (by rw [hfold, h, hbx]; exact List.mem_cons_self x t)
    · exact Or.inr (by rw [hfold]; exact List.mem_cons_of_mem x h)

/-- C6 fails: when every member confidence is 0 (which the pipeline can
produce), the computed `confidence_based` weight vector is
`confidences / 0` — NaN entries in the float code, `0/0 = 0` in this
rational model — and does not sum to 1. -/
theorem c6_counterexample_zero_confidence_weights :
    (confWeights [⟨"a", [1], 0, 4⟩, ⟨"b", [2], 0, 6⟩]).sum = 0 ∧
    (0 : ℚ) ≠ 1 := by
  constructor
  · norm_num [confWeights]
  · norm_num

/-- C6 amended: for every input list whose size total (respectively
confidence total) is nonzero — in particular for every non-empty list
produced by the pipeline with a positive-confidence member — the
`weighted_average` and `confidence_based` weight vectors sum to
exactly 1. -/
theorem c6_amended_weights_sum_to_one (sfs : List SegForecast)
    (hS : ((((sfs.map fun t => t.size).sum) : ℕ) : ℚ) ≠ 0)
    (hC : (sfs.map fun t => t.confidence).sum ≠ 0) :
    (sizeWeights sfs).sum = 1 ∧ (confWeights sfs).sum = 1 :=
  ⟨sizeWeights_sum sfs hS, confWeights_sum sfs hC⟩

/-- Witness for C6 amended on a concrete two-segment list. -/
theorem c6_amended_weights_sum_to_one_witness :
    (sizeWeights [⟨"a", [1], 1/2, 4⟩, ⟨"b", [2], 1/2, 6⟩]).sum = 1 ∧
    (confWeights [⟨"a", [1], 1/2, 4⟩, ⟨"b", [2], 1/2, 6⟩]).sum = 1 :=
  c6_amended_weights_sum_to_one _ (by norm_num) (by norm_num)

/-- C7 fails: on a non-empty list whose confidences are all 0 the
normalisation divides by zero — the float code produces NaN weights and
a NaN "forecast" (no number), rendered in the rational model as the
merge failing — rather than a confidence-weighted average. -/
theorem c7_counterexample_zero_confidences :
    confidence_based [⟨"a", [1], 0, 4⟩, ⟨"b", [2], 0, 6⟩] = none := by
  norm_num [confidence_based, npAverage, confWeights]

/-- C7 amended: for every non-empty list of segment forecasts with a
nonzero confidence total and a common forecast length, the
`confidence_based` merge succeeds and returns, at every horizon index,
the confidence-weighted elementwise average
`Σ cᵢ·fᵢ[j] / Σ cᵢ` (the confidences normalised to sum to 1), with the
merged confidence equal to the maximum member confidence (it bounds
every member's confidence and is one of them). -/
theorem c7_amended_confidence_merge (s : SegForecast)
    (rest : List SegForecast)
    (hC : ((s :: rest).map fun t => t.confidence).sum ≠ 0)
    (hlen : ∀ t ∈ s :: rest, t.forecast.length = s.forecast.length) :
    confidence_based (s :: rest) = some
      ⟨(List.range s.forecast.length).map fun j =>
          ((s :: rest).map fun t => t.confidence * t.forecast.getD j 0).sum /
            ((s :: rest).map fun t => t.confidence).sum,
        (rest.map fun t => t.confidence).foldl max s.confidence,
        (s :: rest).length, "confidence_based"⟩ ∧
    (∀ t ∈ s :: rest,
      t.confidence ≤ (rest.map fun t => t.confidence).foldl max s.confidence) ∧
    ((rest.map fun t => t.confidence).foldl max s.confidence) ∈
      (s :: rest).map fun t => t.confidence := by
  refine ⟨?_, ?_, ?_⟩
  · have hz : ((s :: rest).map fun t => t.forecast) =
        s.forecast :: (rest.map fun t => t.forecast) := by simp
    have hcw1 : (confWeights (s :: rest)).sum = 1 := confWeights_sum _ hC
    have hpt : ∀ j : ℕ,
        (((s.forecast :: (rest.map fun t => t.forecast)).zip
            (confWeights (s :: rest))).map
          (fun p => p.2 * p.1.getD j 0)).sum / (confWeights (s :: rest)).sum =
        ((s :: rest).map fun t => t.confidence * t.forecast.getD j 0).sum /
          ((s :: rest).map fun t => t.confidence).sum := by
      intro j
      rw [hcw1, div_one, ← hz]
      unfold confWeights
      rw [List.zip_map', List.map_map]
      have hfun : ((fun p : List ℚ × ℚ => p.2 * p.1.getD j 0) ∘
          fun t : SegForecast => (t.forecast,
            t.confidence / ((s :: rest).map fun t => t.confidence).sum)) =
          fun t : SegForecast => (t.confidence * t.forecast.getD j 0) /
            ((s :: rest).map fun t => t.confidence).sum := by
        funext t
        simp only [Function.comp_apply]
        rw [div_mul_eq_mul_div]
      rw [hfun]
      rw [show ((s :: rest).map fun t =>
          (t.confidence * t.forecast.getD j 0) /
            ((s :: rest).map fun t => t.confidence).sum) =
          (((s :: rest).map fun t =>
            t.confidence * t.forecast.getD j 0).map fun x =>
              x / ((s :: rest).map fun t => t.confidence).sum) from by
        rw [List.map_map]
        rfl]
      rw [sum_map_div]
    have hguard :
        (∀ g ∈ s.forecast :: (rest.map fun t => t.forecast),
          g.length = s.forecast.length) ∧
        (confWeights (s :: rest)).length =
          (s.forecast :: (rest.map fun t => t.forecast)).length ∧
        (confWeights (s :: rest)).sum ≠ 0 := by
      refine ⟨?_, ?_, ?_⟩
      · intro g hg
        rw [← hz] at hg
        rcases List.mem_map.mp hg with ⟨t, ht, rfl⟩
        exact hlen t ht
      · simp [confWeights]
      · rw [hcw1]
        norm_num
    simp only [confidence_based, hz, npAverage]
    rw [if_pos hguard]
    refine congrArg some ?_
    refine congrArg (fun v => MergeOut.mk v _ _ _) ?_
    exact List.map_congr_left fun j _ => hpt j
  · intro t ht
    rcases List.mem_cons.mp ht with rfl | ht'
    · exact le_foldl_max _ t.confidence
    · exact mem_le_foldl_max _ s.confidence t.confidence
        (List.mem_map_of_mem _ ht')
  · rcases foldl_max_mem (rest.map fun t => t.confidence) s.confidence with
      h | h
    · rw [h]
      exact List.mem_cons_self _ _
    · simpa using Or.inr (by simpa using h)

/-- Witness for C7 amended on a concrete two-segment list with
confidences 1/2 and 3/4. -/
theorem c7_amended_confidence_merge_witness :
    confidence_based [⟨"a", [1, 2], 1/2, 4⟩, ⟨"b", [3, 4], 3/4, 6⟩] = some
      ⟨(List.range ([(1 : ℚ), 2]).length).map fun j =>
          (([⟨"a", [1, 2], 1/2, 4⟩, ⟨"b", [3, 4], 3/4, 6⟩] :
              List SegForecast).map fun t =>
            t.confidence * t.forecast.getD j 0).sum /
            (([⟨"a", [1, 2], 1/2, 4⟩, ⟨"b", [3, 4], 3/4, 6⟩] :
              List SegForecast).map fun t => t.confidence).sum,
        (([(⟨"b", [3, 4], 3/4, 6⟩ : SegForecast)]).map fun t =>
          t.confidence).foldl max (1/2),
        2, "confidence_based"⟩ ∧
    (∀ t ∈ ([⟨"a", [1, 2], 1/2, 4⟩, ⟨"b", [3, 4], 3/4, 6⟩] :
        List SegForecast),
      t.confidence ≤ (([(⟨"b", [3, 4], 3/4, 6⟩ : SegForecast)]).map
        fun t => t.confidence).foldl max (1/2)) ∧
    ((([(⟨"b", [3, 4], 3/4, 6⟩ : SegForecast)]).map
        fun t => t.confidence).foldl max (1/2)) ∈
      (([⟨"a", [1, 2], 1/2, 4⟩, ⟨"b", [3, 4], 3/4, 6⟩] :
        List SegForecast).map fun t => t.confidence) :=
  c7_amended_confidence_merge ⟨"a", [1, 2], 1/2, 4⟩ [⟨"b", [3, 4], 3/4, 6⟩]
    (by norm_num) (by intro t ht; fin_cases ht <;> rfl)

/-- A successful moving-average forecast has exactly `horizon`
entries. -/
theorem forecast_moving_average_length (prices : List ℚ)
    (horizon window : ℕ) (f : List ℚ)
    (h : forecast_moving_average prices horizon window = some f) :
    f.length = horizon := by
  by_cases hc : prices = [] ∨ window = 0
  · rw [forecast_moving_average, if_pos hc] at h
    exact absurd h (by simp)
  · rw [forecast_moving_average, if_neg hc] at h
    obtain rfl := Option.some.inj h
    exact List.length_replicate _ _

/-- A successful ARIMA attempt (fit or internal fallback) has exactly
`horizon` entries whenever the external fit does. -/
theorem forecast_arima_length (env : Env) (prices : List ℚ) (horizon : ℕ)
    (f : List ℚ)
    (hA : ∀ g, env.arimaFit prices horizon = some g → g.length = horizon)
    (h : forecast_arima env prices horizon = some f) : f.length = horizon := by
  cases hfit : env.arimaFit prices horizon with
  | some g =>
    simp only [forecast_arima, hfit] at h
    obtain rfl := Option.some.inj h
    exact hA g hfit
  | none =>
    simp only [forecast_arima, hfit] at h
    exact forecast_moving_average_length prices horizon 7 f h

/-- Same for the exponential-smoothing attempt. -/
theorem forecast_es_length (env : Env) (prices : List ℚ) (horizon : ℕ)
    (f : List ℚ)
    (hE : ∀ g, env.esFit prices horizon = some g → g.length = horizon)
    (h : forecast_exponential_smoothing env prices horizon = some f) :
    f.length = horizon := by
  cases hfit : env.esFit prices horizon with
  | some g =>
    simp only [forecast_exponential_smoothing, hfit] at h
    obtain rfl := Option.some.inj h
    exact hE g hfit
  | none =>
    simp only [forecast_exponential_smoothing, hfit] at h
    exact forecast_moving_average_length prices horizon 7 f h

/-- Every collected ensemble member forecast has exactly `horizon`
entries (given that the external fits produce `horizon` steps, as
`statsmodels .forecast(steps=horizon)` does). -/
theorem ensembleMembers_forecast_length (env : Env) (prices : List ℚ)
    (horizon : ℕ)
    (hA : ∀ g, env.arimaFit prices horizon = some g → g.length = horizon)
    (hE : ∀ g, env.esFit prices horizon = some g → g.length = horizon) :
    ∀ m ∈ ensembleMembers env prices horizon, m.1.length = horizon := by
  intro m hm
  unfold ensembleMembers at hm
  rcases List.mem_append.mp hm with hm' | hmC
  · rcases List.mem_append.mp hm' with hmA | hmB
    · cases ha : (if env.arimaAvail then forecast_arima env prices horizon
          else none) with
      | none => rw [ha] at hmA; exact absurd hmA (List.not_mem_nil m)
      | some g =>
        rw [ha] at hmA
        have hmg : m = (g, (2 : ℚ)/5) := by simpa using hmA
        subst hmg
        cases hava : env.arimaAvail with
        | true =>
          rw [hava, if_pos rfl] at ha
          exact forecast_arima_length env prices horizon g hA ha
        | false =>
          rw [hava, if_neg Bool.false_ne_true] at ha
          exact absurd ha (by simp)
    · cases he : (if env.esAvail then
          forecast_exponential_smoothing env prices horizon else none) with
      | none => rw [he] at hmB; exact absurd hmB (List.not_mem_nil m)
      | some g =>
        rw [he] at hmB
        have hmg : m = (g, (3 : ℚ)/10) := by simpa using hmB
        subst hmg
        cases hava : env.esAvail with
        | true =>
          rw [hava, if_pos rfl] at he
          exact forecast_es_length env prices horizon g hE he
        | false =>
          rw [hava, if_neg Bool.false_ne_true] at he
          exact absurd he (by simp)
  · cases hma : forecast_moving_average prices horizon with
    | none => rw [hma] at hmC; exact absurd hmC (List.not_mem_nil m)
    | some g =>
      rw [hma] at hmC
      have hmg : m = (g, (3 : ℚ)/10) := by simpa using hmC
      subst hmg
      exact forecast_moving_average_length prices horizon 7 g hma

/-- A successful `np.average` along axis 0 has the members' common
length. -/
theorem npAverage_some_length (fs : List (List ℚ)) (ws : List ℚ)
    (v : List ℚ) (L : ℕ) (h : npAverage fs ws = some v)
    (hf : ∀ g ∈ fs, g.length = L) (hne : fs ≠ []) : v.length = L := by
  match fs, hne with
  | f :: r, _ =>
    simp only [npAverage] at h
    split at h
    · obtain rfl := Option.some.inj h
      simp only [List.length_map, List.length_range]
      exact hf f (List.mem_cons_self f r)
    · exact absurd h (by simp)

/-- A successful ensemble forecast has exactly `horizon` entries. -/
theorem ensemble_forecast_length (env : Env) (prices : List ℚ)
    (horizon : ℕ) (f : List ℚ) (c : ℚ)
    (hA : ∀ g, env.arimaFit prices horizon = some g → g.length = horizon)
    (hE : ∀ g, env.esFit prices horizon = some g → g.length = horizon)
    (h : ensemble_forecast env prices horizon = some (f, c)) :
    f.length = horizon := by
  unfold ensemble_forecast at h
  split at h
  · exact absurd h (by simp)
  · rename_i ma hma
    split at h
    · exact absurd h (by simp)
    · rename_i ens hens
      have hfe : ens = f := congrArg Prod.fst (Option.some.inj h)
      subst hfe
      have hmem_ne : ensembleMembers env prices horizon ≠ [] := by
        unfold ensembleMembers
        rw [hma]
        simp
      exact npAverage_some_length _ _ _ horizon hens
        (by
          intro g hg
          rcases List.mem_map.mp hg with ⟨mem, hmem, rfl⟩
          exact ensembleMembers_forecast_length env prices horizon hA hE
            mem hmem)
        (by simpa using hmem_ne)

/-- A successful `confidence_based` merge inherits the members' common
forecast length. -/
theorem confidence_based_forecast_length (sfs : List SegForecast)
    (m : MergeOut) (L : ℕ) (h : confidence_based sfs = some m)
    (hf : ∀ t ∈ sfs, t.forecast.length = L) : m.forecast.length = L := by
  match sfs with
  | [] => simp [confidence_based] at h
  | s :: rest =>
    simp only [confidence_based] at h
    split at h
    · exact absurd h (by simp)
    · rename_i mf hmf
      injection h with h2
      subst h2
      exact npAverage_some_length _ _ _ L hmf
        (by
          intro g hg
          rcases List.mem_map.mp hg with ⟨t, ht, rfl⟩
          exact hf t ht)
        (by simp)

/-- C2: every forecast `predict` returns — on the merged path and on
the degenerate zero-segments path alike — has length exactly the
requested horizon (assuming, as `statsmodels` guarantees, that the
external fits return `horizon`-step forecasts when they succeed). -/
theorem c2_forecast_length_eq_horizon (env : Env) (mss : ℕ) (df : Frame)
    (horizon : ℕ) (strategy : String) (r : PredictResult)
    (hA : ∀ p n g, env.arimaFit p n = some g → g.length = n)
    (hE : ∀ p n g, env.esFit p n = some g → g.length = n)
    (h : predict env mss df horizon strategy = some r) :
    r.forecast.length = horizon := by
  unfold predict at h
  split at h
  · exact absurd h (by simp)
  · split at h
    · split at h
      · exact absurd h (by simp)
      · rename_i fc hfc
        injection h with h2
        subst h2
        exact ensemble_forecast_length env _ horizon fc.1 fc.2 (hA _ _)
          (hE _ _) (by rw [hfc])
    · split at h
      · exact absurd h (by simp)
      · rename_i m hm
        injection h with h2
        subst h2
        refine confidence_based_forecast_length _ m horizon hm ?_
        intro t ht
        rcases List.mem_filterMap.mp ht with ⟨seg, hseg, hopt⟩
        rcases Option.map_eq_some'.mp hopt with ⟨fc, hfc, rfl⟩
        exact ensemble_forecast_length env _ horizon fc.1 fc.2 (hA _ _)
          (hE _ _) (by rw [hfc])

/-- Witness for C2 at a concrete merged-path run: `frameW` with
threshold 2, horizon 3 and route strategy yields `resMerged`, whose
forecast has length 3. -/
theorem c2_forecast_length_eq_horizon_witness :
    resMerged.forecast.length = 3 :=
  c2_forecast_length_eq_horizon envW 2 frameW 3 "route" resMerged
    (by intro p n g hg; exact absurd hg (by simp [envW]))
    (by intro p n g hg; exact absurd hg (by simp [envW]))
    (by norm_num [predict, segmentsFor, segment_by_route, groupBy,
      groupKeys, ensemble_forecast, ensembleMembers, forecast_arima,
      forecast_exponential_smoothing, forecast_moving_average, lastValidMA,
      npAverage, normWeights, ensembleConfidence, meanQ, stdMean, varAt,
      colAt, confidence_based, confWeights, envW, frameW, recW, resMerged,
      List.cons_ne_nil, List.range_succ, List.filterMap_cons,
      List.filterMap_nil])

end DivideConquer
